import Mathlib

/-
Verification of the "never have I ever" game server (src/server.js).

The server keeps three registries: `lobbies` (session code → Lobby),
`gameStates` (session code → GameState) and `disconnectedPlayers`
(username → {code, timestamp}).  JS objects used as dictionaries
(`initialVotes`, `guesses`, `scores`) are embedded as association lists
with overwrite-on-set semantics; JS `Map`s keyed by username likewise.
All handlers are single-threaded in the event loop, so each socket
handler and timer callback is embedded as a pure function on the state
it reads and writes.
-/

namespace Server

/-! ### Association-list dictionaries (JS objects keyed by string) -/

/-- Lookup `m[k]`: the binding of `k`, if any. -/
def alGet {α : Type} : List (String × α) → String → Option α
  | [], _ => none
  | (a, b) :: t, k => if a = k then some b else alGet t k

/-- Key test `m.hasOwnProperty(k)`. -/
def alHasKey {α : Type} : List (String × α) → String → Bool
  | [], _ => false
  | (a, _) :: t, k => a = k || alHasKey t k

/-- Replace every binding of `k` by `v`, leaving other keys untouched. -/
def alOverwrite {α : Type} (k : String) (v : α) : List (String × α) → List (String × α)
  | [] => []
  | (a, b) :: t => if a = k then (k, v) :: alOverwrite k v t else (a, b) :: alOverwrite k v t

/-- Assignment `m[k] = v`: overwrite the binding if the key is present, else append it. -/
def alSet {α : Type} (m : List (String × α)) (k : String) (v : α) : List (String × α) :=
  if alHasKey m k then alOverwrite k v m else m ++ [(k, v)]

/-- Increment `scores[u] += d`.  The server only ever does this for usernames whose
score entry was seeded at game start or on join, so it is embedded as an
update of the existing entry (absent keys are left absent). -/
def addScore : List (String × Int) → String → Int → List (String × Int)
  | [], _, _ => []
  | (a, b) :: t, u, d => if a = u then (a, b + d) :: addScore t u d else (a, b) :: addScore t u d

theorem alGet_alOverwrite_self {α : Type} (m : List (String × α)) (k : String) (v : α)
    (h : alHasKey m k = true) : alGet (alOverwrite k v m) k = some v := by
  induction m with
  | nil => simp [alHasKey] at h
  | cons hd t ih =>
    obtain ⟨a, b⟩ := hd
    by_cases hk : a = k
    · simp [alOverwrite, hk, alGet]
    · simp only [alHasKey, Bool.or_eq_true, decide_eq_true_eq] at h
      simp [alOverwrite, hk, alGet, ih (h.resolve_left hk)]

theorem alGet_alOverwrite_ne {α : Type} (m : List (String × α)) (k u : String) (v : α)
    (h : u ≠ k) : alGet (alOverwrite k v m) u = alGet m u := by
  induction m with
  | nil => simp [alOverwrite]
  | cons hd t ih =>
    obtain ⟨a, b⟩ := hd
    by_cases hk : a = k
    · subst hk
      simp [alOverwrite, alGet, Ne.symm h, ih]
    · simp [alOverwrite, hk, alGet, ih]

theorem alGet_append_single_self {α : Type} (m : List (String × α)) (k : String) (v : α)
    (h : alHasKey m k = false) : alGet (m ++ [(k, v)]) k = some v := by
  induction m with
  | nil => simp [alGet]
  | cons hd t ih =>
    obtain ⟨a, b⟩ := hd
    simp only [alHasKey, Bool.or_eq_false_iff, decide_eq_false_iff_not] at h
    simp [alGet, h.1, ih h.2]

theorem alGet_append_single_ne {α : Type} (m : List (String × α)) (k u : String) (v : α)
    (h : u ≠ k) : alGet (m ++ [(k, v)]) u = alGet m u := by
  induction m with
  | nil => simp [alGet, Ne.symm h]
  | cons hd t ih =>
    obtain ⟨a, b⟩ := hd
    by_cases hu : a = u
    · simp [alGet, hu]
    · simp [alGet, hu, ih]

theorem alHasKey_append {α : Type} (m l : List (String × α)) (u : String) :
    alHasKey (m ++ l) u = (alHasKey m u || alHasKey l u) := by
  induction m with
  | nil => simp [alHasKey]
  | cons hd t ih =>
    obtain ⟨a, b⟩ := hd
    simp [alHasKey, ih, Bool.or_assoc]

theorem alGet_alSet_self {α : Type} (m : List (String × α)) (k : String) (v : α) :
    alGet (alSet m k v) k = some v := by
  unfold alSet
  split
  · exact alGet_alOverwrite_self m k v ‹_›
  · exact alGet_append_single_self m k v (by simp_all)

theorem alGet_alSet_ne {α : Type} (m : List (String × α)) (k u : String) (v : α)
    (h : u ≠ k) : alGet (alSet m k v) u = alGet m u := by
  unfold alSet
  split
  · exact alGet_alOverwrite_ne m k u v h
  · exact alGet_append_single_ne m k u v h

theorem alHasKey_alOverwrite {α : Type} (m : List (String × α)) (k u : String) (v : α) :
    alHasKey (alOverwrite k v m) u = alHasKey m u := by
  induction m with
  | nil => simp [alOverwrite]
  | cons hd t ih =>
    obtain ⟨a, b⟩ := hd
    by_cases hk : a = k
    · subst hk
      simp [alOverwrite, alHasKey, ih]
    · simp [alOverwrite, hk, alHasKey, ih]

theorem alHasKey_alSet {α : Type} (m : List (String × α)) (k u : String) (v : α)
    (h : alHasKey m u = true) : alHasKey (alSet m k v) u = true := by
  unfold alSet
  split
  · rw [alHasKey_alOverwrite]; exact h
  · simp [alHasKey_append, h]

theorem addScore_get_self (sc : List (String × Int)) (u : String) (d s : Int)
    (h : alGet sc u = some s) : alGet (addScore sc u d) u = some (s + d) := by
  induction sc with
  | nil => simp [alGet] at h
  | cons hd t ih =>
    obtain ⟨a, b⟩ := hd
    by_cases hu : a = u
    · simp [alGet, hu] at h
      simp [addScore, hu, alGet, h]
    · simp [alGet, hu] at h
      simp [addScore, hu, alGet, ih h]

theorem addScore_get_ne (sc : List (String × Int)) (k u : String) (d : Int)
    (h : u ≠ k) : alGet (addScore sc k d) u = alGet sc u := by
  induction sc with
  | nil => simp [addScore]
  | cons hd t ih =>
    obtain ⟨a, b⟩ := hd
    by_cases hk : a = k
    · subst hk
      simp [addScore, alGet, Ne.symm h, ih]
    · simp [addScore, hk, alGet, ih]

theorem alHasKey_addScore (sc : List (String × Int)) (k u : String) (d : Int) :
    alHasKey (addScore sc k d) u = alHasKey sc u := by
  induction sc with
  | nil => simp [addScore]
  | cons hd t ih =>
    obtain ⟨a, b⟩ := hd
    by_cases hk : a = k
    · simp [addScore, hk, alHasKey, ih]
    · simp [addScore, hk, alHasKey, ih]

/-! ### Data model (src/server.js lines 103-122, 219-240) -/

/-- Entry of `lobby.participants`. -/
structure Participant where
  username : String
  isHost : Bool
  connected : Bool
deriving DecidableEq, Repr

/-- A lobby record stored in the `lobbies` map. -/
structure Lobby where
  code : String
  host : String
  participants : List Participant
  createdAt : Nat
  gameStarted : Bool
deriving DecidableEq, Repr

/-- A game-state record stored in the `gameStates` map.  `timerInterval`
holds the handle of the running `setInterval`, if any; the countdown value
lives in `timer`. -/
structure GameState where
  phase : String
  roundNumber : Nat
  totalRounds : Nat
  currentTopic : Option String
  initialVotes : List (String × String)
  selectedPlayer : Option String
  playerInitialVote : Option String
  confession : Option String
  guesses : List (String × String)
  scores : List (String × Int)
  usedTopics : List Nat
  timer : Nat
  timerInterval : Option Nat
deriving DecidableEq, Repr

/-- A `forEach` over the roster that bumps the score of every participant
satisfying `cond` by `d` (the shape of both award loops in
`calculateInitialResults` and `calculateConfessionResults`). -/
def awardBy (cond : Participant → Bool) (d : Int) (parts : List Participant)
    (sc : List (String × Int)) : List (String × Int) :=
  parts.foldl (fun sc p => if cond p then addScore sc p.username d else sc) sc

theorem awardBy_get_not_mem (cond : Participant → Bool) (d : Int)
    (parts : List Participant) (sc : List (String × Int)) (u : String)
    (h : u ∉ parts.map (·.username)) :
    alGet (awardBy cond d parts sc) u = alGet sc u := by
  induction parts generalizing sc with
  | nil => simp [awardBy]
  | cons p t ih =>
    simp only [List.map_cons, List.mem_cons, not_or] at h
    simp only [awardBy, List.foldl_cons]
    rw [show (List.foldl (fun sc p => if cond p then addScore sc p.username d else sc)
        (if cond p then addScore sc p.username d else sc) t) =
        awardBy cond d t (if cond p then addScore sc p.username d else sc) from rfl]
    rw [ih _ h.2]
    split
    · exact addScore_get_ne sc p.username u d h.1
    · rfl

theorem alHasKey_awardBy (cond : Participant → Bool) (d : Int)
    (parts : List Participant) (sc : List (String × Int)) (u : String) :
    alHasKey (awardBy cond d parts sc) u = alHasKey sc u := by
  induction parts generalizing sc with
  | nil => simp [awardBy]
  | cons p t ih =>
    simp only [awardBy, List.foldl_cons] at ih ⊢
    rw [ih]
    split
    · exact alHasKey_addScore sc p.username u d
    · rfl

theorem awardBy_get_pos (cond : Participant → Bool) (d : Int)
    (parts : List Participant) (sc : List (String × Int)) (p : Participant) (s : Int)
    (hnd : (parts.map (·.username)).Nodup) (hp : p ∈ parts) (hc : cond p = true)
    (hs : alGet sc p.username = some s) :
    alGet (awardBy cond d parts sc) p.username = some (s + d) := by
  induction parts generalizing sc with
  | nil => simp at hp
  | cons q t ih =>
    simp only [List.map_cons, List.nodup_cons] at hnd
    rcases List.mem_cons.mp hp with rfl | hp
    · simp only [awardBy, List.foldl_cons, hc, if_true]
      rw [show (List.foldl (fun sc p => if cond p then addScore sc p.username d else sc)
          (addScore sc p.username d) t) = awardBy cond d t (addScore sc p.username d) from rfl]
      rw [awardBy_get_not_mem _ _ _ _ _ hnd.1]
      exact addScore_get_self sc p.username d s hs
    · have hne : p.username ≠ q.username := by
        intro he
        exact hnd.1 (he ▸ List.mem_map_of_mem (·.username) hp)
      simp only [awardBy, List.foldl_cons]
      rw [show (List.foldl (fun sc p => if cond p then addScore sc p.username d else sc)
          (if cond q then addScore sc q.username d else sc) t) =
          awardBy cond d t (if cond q then addScore sc q.username d else sc) from rfl]
      apply ih _ hnd.2 hp
      split
      · rw [addScore_get_ne sc q.username p.username d hne]; exact hs
      · exact hs

theorem awardBy_get_neg (cond : Participant → Bool) (d : Int)
    (parts : List Participant) (sc : List (String × Int)) (p : Participant)
    (hnd : (parts.map (·.username)).Nodup) (hp : p ∈ parts) (hc : cond p = false) :
    alGet (awardBy cond d parts sc) p.username = alGet sc p.username := by
  induction parts generalizing sc with
  | nil => simp at hp
  | cons q t ih =>
    simp only [List.map_cons, List.nodup_cons] at hnd
    rcases List.mem_cons.mp hp with rfl | hp
    · have hif : (if cond p = true then addScore sc p.username d else sc) = sc := by
        rw [hc]; simp
      simp only [awardBy, List.foldl_cons, hif]
      rw [show (List.foldl (fun sc p => if cond p then addScore sc p.username d else sc) sc t) =
          awardBy cond d t sc from rfl]
      exact awardBy_get_not_mem _ _ _ _ _ hnd.1
    · have hne : p.username ≠ q.username := by
        intro he
        exact hnd.1 (he ▸ List.mem_map_of_mem (·.username) hp)
      simp only [awardBy, List.foldl_cons]
      rw [show (List.foldl (fun sc p => if cond p then addScore sc p.username d else sc)
          (if cond q then addScore sc q.username d else sc) t) =
          awardBy cond d t (if cond q then addScore sc q.username d else sc) from rfl]
      rw [ih _ hnd.2 hp]
      split
      · exact addScore_get_ne sc q.username p.username d hne
      · rfl

/-! ### Initial-voting phase (src/server.js lines 250-282, 478-528, 695-715) -/

/-- The `cast-initial-vote` handler (lines 250-282).  Records the vote
(last-write-wins), then, when every connected participant has a recorded
vote AND at least 15 of the 30 seconds have elapsed, clears the countdown
interval and schedules `calculateInitialResults`; the returned flag is
true exactly when that early advance was scheduled. -/
def castInitialVote (lobby : Lobby) (gs : GameState) (username vote : String) :
    GameState × Bool :=
  if gs.phase = "initial-voting" then
    let votes := alSet gs.initialVotes username vote
    let connectedPlayers := lobby.participants.filter (fun p => p.connected)
    let allPlayersVoted := connectedPlayers.all (fun p => alHasKey votes p.username)
    if allPlayersVoted = true ∧ 15 ≤ 30 - gs.timer then
      ({ gs with initialVotes := votes, timerInterval := none }, true)
    else
      ({ gs with initialVotes := votes }, false)
  else (gs, false)

/-- One tick of the `setInterval` installed by `startTimer` (lines 705-714):
decrement the countdown, and when it reaches 0 clear the interval and run
the phase callback; the returned flag is true exactly when the callback ran. -/
def timerTick (gs : GameState) : GameState × Bool :=
  let gs1 := { gs with timer := gs.timer - 1 }
  if gs1.timer = 0 then ({ gs1 with timerInterval := none }, true) else (gs1, false)

/-- Vote tally of `calculateInitialResults` (lines 485-496): count the
recorded "yes" and "no" votes of connected roster members only. -/
def countVotes (lobby : Lobby) (votes : List (String × String)) : Nat × Nat :=
  lobby.participants.foldl
    (fun acc p =>
      if p.connected then
        match alGet votes p.username with
        | some v => if v = "yes" then (acc.1 + 1, acc.2) else
                    if v = "no" then (acc.1, acc.2 + 1) else acc
        | none => acc
      else acc)
    (0, 0)

/-- Majority determination (lines 499-505): strict inequality, none on a tie. -/
def majorityVote (t : Nat × Nat) : Option String :=
  if t.1 > t.2 then some "yes" else if t.2 > t.1 then some "no" else none

/-- Function `calculateInitialResults` (lines 478-528): tally, determine the
majority, bump every roster member whose recorded vote equals the majority
by 1 (the award loop does not re-check connectivity), and enter the
`initial-results` phase. -/
def calculateInitialResults (lobby : Lobby) (gs : GameState) : GameState :=
  let t := countVotes lobby gs.initialVotes
  let mv := majorityVote t
  let sc := match mv with
    | some m => awardBy (fun p => decide (alGet gs.initialVotes p.username = some m)) 1
        lobby.participants gs.scores
    | none => gs.scores
  { gs with scores := sc, phase := "initial-results" }

theorem countVotes_foldl_fst (votes : List (String × String)) (parts : List Participant)
    (acc : Nat × Nat) :
    (parts.foldl
      (fun acc p =>
        if p.connected then
          match alGet votes p.username with
          | some v => if v = "yes" then (acc.1 + 1, acc.2) else
                      if v = "no" then (acc.1, acc.2 + 1) else acc
          | none => acc
        else acc)
      acc).1 =
    acc.1 + parts.countP (fun p => p.connected && decide (alGet votes p.username = some "yes")) := by
  induction parts generalizing acc with
  | nil => simp
  | cons p t ih =>
    simp only [List.foldl_cons, List.countP_cons]
    rw [ih]
    by_cases hc : p.connected
    · simp only [hc, if_true, Bool.true_and]
      cases hv : alGet votes p.username with
      | none => simp
      | some v =>
        by_cases hy : v = "yes"
        · subst hy; simp; omega
        · by_cases hn : v = "no" <;> simp [hy, hn]
    · simp only [hc]
      simp [show p.connected = false by simpa using hc]

theorem countVotes_foldl_snd (votes : List (String × String)) (parts : List Participant)
    (acc : Nat × Nat) :
    (parts.foldl
      (fun acc p =>
        if p.connected then
          match alGet votes p.username with
          | some v => if v = "yes" then (acc.1 + 1, acc.2) else
                      if v = "no" then (acc.1, acc.2 + 1) else acc
          | none => acc
        else acc)
      acc).2 =
    acc.2 + parts.countP (fun p => p.connected && decide (alGet votes p.username = some "no")) := by
  induction parts generalizing acc with
  | nil => simp
  | cons p t ih =>
    simp only [List.foldl_cons, List.countP_cons]
    rw [ih]
    by_cases hc : p.connected
    · simp only [hc, if_true, Bool.true_and]
      cases hv : alGet votes p.username with
      | none => simp
      | some v =>
        by_cases hy : v = "yes"
        · subst hy; simp
        · by_cases hn : v = "no"
          · subst hn; simp [hy]; omega
          · simp [hy, hn]
    · simp only [hc]
      simp [show p.connected = false by simpa using hc]

/-- C1: when the initial-voting phase completes, the tally counts only the
votes of connected participants; with a strict majority every connected
participant whose recorded vote equals the majority option gains exactly
1 point, and on a tie no participant's score changes. -/
theorem c1_initial_majority_scoring (lobby : Lobby) (gs : GameState)
    (hnd : (lobby.participants.map (·.username)).Nodup) :
    ((countVotes lobby gs.initialVotes).1 = lobby.participants.countP
        (fun p => p.connected && decide (alGet gs.initialVotes p.username = some "yes")) ∧
     (countVotes lobby gs.initialVotes).2 = lobby.participants.countP
        (fun p => p.connected && decide (alGet gs.initialVotes p.username = some "no"))) ∧
    (∀ m, majorityVote (countVotes lobby gs.initialVotes) = some m →
      ∀ p ∈ lobby.participants, p.connected = true →
        alGet gs.initialVotes p.username = some m →
        ∀ s, alGet gs.scores p.username = some s →
          alGet (calculateInitialResults lobby gs).scores p.username = some (s + 1)) ∧
    ((countVotes lobby gs.initialVotes).1 = (countVotes lobby gs.initialVotes).2 →
      (calculateInitialResults lobby gs).scores = gs.scores) := by
  refine ⟨⟨?_, ?_⟩, ?_, ?_⟩
  · simpa using countVotes_foldl_fst gs.initialVotes lobby.participants (0, 0)
  · simpa using countVotes_foldl_snd gs.initialVotes lobby.participants (0, 0)
  · intro m hm p hp hc hv s hs
    unfold calculateInitialResults
    simp only [hm]
    exact awardBy_get_pos _ 1 _ _ p s hnd hp (by simp [hv]) hs
  · intro htie
    have hnone : majorityVote (countVotes lobby gs.initialVotes) = none := by
      unfold majorityVote
      simp [htie]
    unfold calculateInitialResults
    simp only [hnone]

def c1Lobby : Lobby :=
  ⟨"ROOM", "A", [⟨"A", true, true⟩, ⟨"B", false, true⟩, ⟨"C", false, true⟩], 0, true⟩

def c1Gs : GameState :=
  ⟨"initial-voting", 1, 15, some "topic", [("A", "yes"), ("B", "yes"), ("C", "no")],
    none, none, none, [], [("A", 0), ("B", 0), ("C", 0)], [0], 12, some 0⟩

/-- C1 witness: votes A:yes, B:yes, C:no give majority "yes" and A ends at 1. -/
theorem c1_witness :
    alGet (calculateInitialResults c1Lobby c1Gs).scores "A" = some 1 := by
  have h := (c1_initial_majority_scoring c1Lobby c1Gs (by decide)).2.1 "yes" (by decide)
      ⟨"A", true, true⟩ (by decide) (by decide) (by decide) 0 (by decide)
  simpa using h

/-- C2: during initial voting the early advance is scheduled exactly when
every connected participant has a recorded vote and at least 15 seconds
have elapsed; below 15 seconds elapsed the phase never advances early (the
handler leaves the phase and the running timer untouched), and the timer
path only fires once the countdown reaches 0. -/
theorem c2_early_advance_floor (lobby : Lobby) (gs : GameState) (u v : String) :
    ((castInitialVote lobby gs u v).2 = true ↔
      gs.phase = "initial-voting" ∧
      (lobby.participants.filter (fun p => p.connected)).all
        (fun p => alHasKey (alSet gs.initialVotes u v) p.username) = true ∧
      15 ≤ 30 - gs.timer) ∧
    (30 - gs.timer < 15 →
      (castInitialVote lobby gs u v).2 = false ∧
      (castInitialVote lobby gs u v).1.phase = gs.phase ∧
      (castInitialVote lobby gs u v).1.timerInterval = gs.timerInterval) ∧
    ((timerTick gs).2 = true → (timerTick gs).1.timer = 0) := by
  refine ⟨?_, ?_, ?_⟩
  · unfold castInitialVote
    by_cases hp : gs.phase = "initial-voting"
    · simp only [hp, if_true]
      by_cases hcond :
          ((lobby.participants.filter (fun p => p.connected)).all
            (fun p => alHasKey (alSet gs.initialVotes u v) p.username) = true ∧
           15 ≤ 30 - gs.timer)
      · simp [hcond.1, hcond.2]
      · rw [if_neg hcond]
        simp only [not_and] at hcond
        constructor
        · intro h; simp at h
        · rintro ⟨-, ha, ht⟩
          exact absurd ht (hcond ha)
    · simp [hp]
  · intro hlt
    unfold castInitialVote
    by_cases hp : gs.phase = "initial-voting"
    · simp only [hp, if_true]
      rw [if_neg (by omega : ¬ ((lobby.participants.filter (fun p => p.connected)).all
            (fun p => alHasKey (alSet gs.initialVotes u v) p.username) = true ∧
           15 ≤ 30 - gs.timer))]
      exact ⟨rfl, rfl, rfl⟩
    · simp [hp]
  · intro h
    unfold timerTick at h ⊢
    by_cases hz : gs.timer - 1 = 0
    · simp [hz]
    · simp [hz] at h

def c2Lobby : Lobby :=
  ⟨"ROOM", "A", [⟨"A", true, true⟩, ⟨"B", false, true⟩], 0, true⟩

def c2Gs : GameState :=
  ⟨"initial-voting", 1, 15, some "topic", [("A", "yes")], none, none, none, [],
    [("A", 0), ("B", 0)], [0], 20, some 0⟩

/-- C2 witness: all connected participants have voted after B's vote, but
only 10 seconds have elapsed, so the phase does not advance early. -/
theorem c2_witness :
    (castInitialVote c2Lobby c2Gs "B" "no").2 = false ∧
    (castInitialVote c2Lobby c2Gs "B" "no").1.phase = c2Gs.phase ∧
    (castInitialVote c2Lobby c2Gs "B" "no").1.timerInterval = c2Gs.timerInterval :=
  (c2_early_advance_floor c2Lobby c2Gs "B" "no").2.1 (by decide)

/-! ### Confession and guessing phases (src/server.js lines 284-301, 568-653) -/

/-- The `make-confession` handler (lines 284-301): accepted while the phase is
`confession` and the sender is the selected player; stores the confession,
clears the countdown interval and schedules `startGuessingPhase` (flag
true).  The handler has no first-write guard. -/
def makeConfession (gs : GameState) (username conf : String) : GameState × Bool :=
  if gs.phase = "confession" ∧ gs.selectedPlayer = some username then
    ({ gs with confession := some conf, timerInterval := none }, true)
  else (gs, false)

/-- Function `startConfessionPhase` (lines 568-580); `h` is the handle of the fresh
60-second interval installed by `startTimer`. -/
def startConfessionPhase (gs : GameState) (h : Nat) : GameState :=
  { gs with phase := "confession", confession := none, timer := 60, timerInterval := some h }

/-- The 60-second confession timeout callback (lines 582-588): if no
confession was made, resolve it to "true" (honest). -/
def confessionTimerFired (gs : GameState) : GameState :=
  if gs.confession = none then { gs with confession := some "true" } else gs

/-- Function `startGuessingPhase` (lines 591-608); `h` is the handle of the fresh
30-second interval installed by `startTimer`. -/
def startGuessingPhase (gs : GameState) (h : Nat) : GameState :=
  { gs with phase := "guessing", guesses := [], timer := 30, timerInterval := some h }

def c3Gs : GameState :=
  ⟨"confession", 1, 15, some "topic", [("A", "yes"), ("B", "no")], some "A", some "yes",
    none, [], [("A", 0), ("B", 0)], [0], 55, some 1⟩

/-- C3 counterexample: while the phase is still `confession` (the scheduled
advance to guessing runs only 1 second later), a second confess submission
from the selected player is accepted and overwrites the first, so the
stored confession is not first-write-wins. -/
theorem c3_counterexample :
    (makeConfession c3Gs "A" "false").1.confession = some "false" ∧
    (makeConfession (makeConfession c3Gs "A" "false").1 "A" "true").2 = true ∧
    (makeConfession (makeConfession c3Gs "A" "false").1 "A" "true").1.confession =
      some "true" := by
  decide

/-- C3 (amended): a confess submission is accepted exactly when the phase is
`confession` and the sender is the selected player, and otherwise leaves the
state unchanged; once the scheduled transition to the guessing phase has
run, every further confess submission is ignored; before that transition
runs, a repeat submission from the selected player overwrites the stored
confession (last-write-wins). -/
theorem c3_confession_rules (gs : GameState) (u c : String) :
    ((makeConfession gs u c).2 = true ↔
      gs.phase = "confession" ∧ gs.selectedPlayer = some u) ∧
    ((makeConfession gs u c).2 = true →
      (makeConfession gs u c).1 = { gs with confession := some c, timerInterval := none }) ∧
    ((makeConfession gs u c).2 = false → (makeConfession gs u c).1 = gs) ∧
    (∀ h, makeConfession (startGuessingPhase gs h) u c = (startGuessingPhase gs h, false)) ∧
    (gs.phase = "confession" → gs.selectedPlayer = some u →
      ∀ c2, (makeConfession (makeConfession gs u c).1 u c2).1.confession = some c2) := by
  refine ⟨?_, ?_, ?_, ?_, ?_⟩
  · unfold makeConfession
    by_cases hcond : (gs.phase = "confession" ∧ gs.selectedPlayer = some u)
    · simp [hcond.1, hcond.2]
    · rw [if_neg hcond]
      simp [hcond]
  · unfold makeConfession
    by_cases hcond : (gs.phase = "confession" ∧ gs.selectedPlayer = some u)
    · rw [if_pos hcond]
      intro _
      rfl
    · rw [if_neg hcond]
      intro h
      simp at h
  · unfold makeConfession
    by_cases hcond : (gs.phase = "confession" ∧ gs.selectedPlayer = some u)
    · rw [if_pos hcond]
      intro h
      simp at h
    · rw [if_neg hcond]
      intro _
      rfl
  · intro h
    unfold makeConfession
    have hne : ¬ ((startGuessingPhase gs h).phase = "confession" ∧
        (startGuessingPhase gs h).selectedPlayer = some u) := by
      intro hc
      have h1 := hc.1
      simp [startGuessingPhase] at h1
    rw [if_neg hne]
  · intro hp hs c2
    simp [makeConfession, hp, hs]

/-- C3 (amended) witness: after the advance to guessing a confess submission
is a no-op, and a repeat submission before it overwrites. -/
theorem c3_witness :
    makeConfession (startGuessingPhase c3Gs 2) "A" "false" = (startGuessingPhase c3Gs 2, false) ∧
    (makeConfession (makeConfession c3Gs "A" "false").1 "A" "true").1.confession =
      some "true" :=
  ⟨(c3_confession_rules c3Gs "A" "false").2.2.2.1 2,
   (c3_confession_rules c3Gs "A" "false").2.2.2.2 (by decide) (by decide) "true"⟩

/-- The JS fallback `gameState.confession || 'true'` (line 631): null (and the falsy
empty string) falls back to the default. -/
def jsOr (o : Option String) (d : String) : String :=
  match o with
  | none => d
  | some s => if s = "" then d else s

/-- Guess tally of `calculateConfessionResults` (lines 617-628): recorded
guesses of connected, non-selected roster members, split into
("true" ⇒ honest, "false" ⇒ lied).  Used only for the broadcast payload. -/
def countGuesses (lobby : Lobby) (gs : GameState) : Nat × Nat :=
  lobby.participants.foldl
    (fun acc p =>
      if p.connected ∧ gs.selectedPlayer ≠ some p.username then
        match alGet gs.guesses p.username with
        | some g => if g = "true" then (acc.1 + 1, acc.2) else
                    if g = "false" then (acc.1, acc.2 + 1) else acc
        | none => acc
      else acc)
    (0, 0)

/-- Function `calculateConfessionResults` (lines 610-653): every connected roster
member other than the selected player whose recorded guess equals the
actual confession (the stored confession, null defaulting to "true") gains
3 points; then the phase becomes `confession-results`. -/
def calculateConfessionResults (lobby : Lobby) (gs : GameState) : GameState :=
  let actualConfession := jsOr gs.confession "true"
  let sc := awardBy
    (fun p => p.connected && decide (gs.selectedPlayer ≠ some p.username) &&
      decide (alGet gs.guesses p.username = some actualConfession)) 3
    lobby.participants gs.scores
  { gs with scores := sc, phase := "confession-results" }

/-- C4: the actual confession is the stored one, defaulting to "true" when
never submitted; every connected participant other than the selected player
whose guess equals it gains exactly 3 points, every other participant's
score is unchanged, and the selected player is excluded even though they
are in the roster. -/
theorem c4_confession_scoring (lobby : Lobby) (gs : GameState)
    (hnd : (lobby.participants.map (·.username)).Nodup) :
    (gs.confession = none → jsOr gs.confession "true" = "true") ∧
    (confessionTimerFired { gs with confession := none }).confession = some "true" ∧
    (∀ p ∈ lobby.participants, p.connected = true →
      gs.selectedPlayer ≠ some p.username →
      alGet gs.guesses p.username = some (jsOr gs.confession "true") →
      ∀ s, alGet gs.scores p.username = some s →
        alGet (calculateConfessionResults lobby gs).scores p.username = some (s + 3)) ∧
    (∀ p ∈ lobby.participants,
      p.connected = false ∨ gs.selectedPlayer = some p.username ∨
        alGet gs.guesses p.username ≠ some (jsOr gs.confession "true") →
      alGet (calculateConfessionResults lobby gs).scores p.username =
        alGet gs.scores p.username) ∧
    (∀ u, u ∉ lobby.participants.map (·.username) →
      alGet (calculateConfessionResults lobby gs).scores u = alGet gs.scores u) := by
  refine ⟨?_, ?_, ?_, ?_, ?_⟩
  · intro h
    rw [h]
    rfl
  · rfl
  · intro p hp hc hsel hg s hs
    unfold calculateConfessionResults
    exact awardBy_get_pos _ 3 _ _ p s hnd hp (by simp [hc, hsel, hg]) hs
  · intro p hp hcond
    unfold calculateConfessionResults
    apply awardBy_get_neg _ 3 _ _ p hnd hp
    rcases hcond with h | h | h
    · simp [h]
    · simp [h]
    · simp [h]
  · intro u hu
    unfold calculateConfessionResults
    exact awardBy_get_not_mem _ 3 _ _ u hu

def c4Lobby : Lobby :=
  ⟨"ROOM", "A", [⟨"A", true, true⟩, ⟨"B", false, true⟩, ⟨"C", false, true⟩], 0, true⟩

def c4Gs : GameState :=
  ⟨"guessing", 1, 15, some "topic", [("A", "yes"), ("B", "no"), ("C", "yes")],
    some "C", some "yes", some "false", [("A", "false"), ("B", "true")],
    [("A", 0), ("B", 0), ("C", 0)], [0], 10, none⟩

/-- C4 witness: confession "false" with guesses A:"false", B:"true" gives
A exactly +3, B unchanged, and the selected player C unchanged. -/
theorem c4_witness :
    alGet (calculateConfessionResults c4Lobby c4Gs).scores "A" = some 3 ∧
    alGet (calculateConfessionResults c4Lobby c4Gs).scores "B" = some 0 ∧
    alGet (calculateConfessionResults c4Lobby c4Gs).scores "C" = some 0 := by
  refine ⟨?_, ?_, ?_⟩
  · have h := (c4_confession_scoring c4Lobby c4Gs (by decide)).2.2.1
      ⟨"A", true, true⟩ (by decide) (by decide) (by decide) (by decide) 0 (by decide)
    simpa using h
  · have h := (c4_confession_scoring c4Lobby c4Gs (by decide)).2.2.2.1
      ⟨"B", false, true⟩ (by decide) (by decide)
    rw [show ("B" : String) = Participant.username ⟨"B", false, true⟩ from rfl, h]
    decide
  · have h := (c4_confession_scoring c4Lobby c4Gs (by decide)).2.2.2.1
      ⟨"C", false, true⟩ (by decide) (by decide)
    rw [show ("C" : String) = Participant.username ⟨"C", false, true⟩ from rfl, h]
    decide

/-! ### Timer discipline (src/server.js lines 681-693, 695-715) -/

/-- Per-session timer state: `installed` is the `gameState.timerInterval`
field, `live` the interval handles created by `setInterval` and not yet
cleared by `clearInterval`, and `nextId` a freshness counter for handles. -/
structure TimerSys where
  nextId : Nat
  live : List Nat
  installed : Option Nat
deriving DecidableEq, Repr

/-- The guard `if (gameState.timerInterval) clearInterval(gameState.timerInterval)`:
the installed handle, if any, stops being live; the field itself is not
nulled (as in `startTimer` and `endGame`). -/
def clearInstalled (ts : TimerSys) : TimerSys :=
  match ts.installed with
  | some i => { ts with live := ts.live.erase i }
  | none => ts

/-- Function `startTimer` (lines 699-705): clear any previously installed interval,
then install a fresh one and store its handle. -/
def startTimerSys (ts : TimerSys) : TimerSys :=
  let ts1 := clearInstalled ts
  { nextId := ts1.nextId + 1, live := ts1.live ++ [ts1.nextId], installed := some ts1.nextId }

/-- Timer handling of `endGame` (lines 686-688). -/
def endGameSys (ts : TimerSys) : TimerSys := clearInstalled ts

/-- The timer-hit-zero branch of the interval callback (lines 709-713): a
callback can only run while its interval is still live; it then clears its
own interval and nulls the field.  The flag records whether a fire
happened. -/
def fireZeroSys (ts : TimerSys) : TimerSys × Bool :=
  match ts.installed with
  | some i =>
    if i ∈ ts.live then
      ({ nextId := ts.nextId, live := ts.live.erase i, installed := none }, true)
    else (ts, false)
  | none => (ts, false)

inductive TimerOp
  | start
  | endg
  | fire
deriving DecidableEq, Repr

def stepTimer (ts : TimerSys) : TimerOp → TimerSys
  | .start => startTimerSys ts
  | .endg => endGameSys ts
  | .fire => (fireZeroSys ts).1

def stepFired (ts : TimerSys) : TimerOp → Bool
  | .fire => (fireZeroSys ts).2
  | _ => false

def runOps (ts : TimerSys) : List TimerOp → TimerSys
  | [] => ts
  | op :: ops => runOps (stepTimer ts op) ops

def countFires (ts : TimerSys) : List TimerOp → Nat
  | [] => 0
  | op :: ops => (if stepFired ts op then 1 else 0) + countFires (stepTimer ts op) ops

def countStarts (ops : List TimerOp) : Nat :=
  ops.countP (fun op => decide (op = TimerOp.start))

def initTS : TimerSys := ⟨0, [], none⟩

/-- Timer-state invariant: every live interval is the installed one, at most
one interval is live, and all handles are below the freshness counter. -/
def TimerInv (ts : TimerSys) : Prop :=
  (∀ i ∈ ts.live, ts.installed = some i) ∧
  ts.live.length ≤ 1 ∧
  (∀ i ∈ ts.live, i < ts.nextId) ∧
  (∀ i ∈ ts.installed.toList, i < ts.nextId)

theorem live_eq_singleton (l : List Nat) (i : Nat) (hlen : l.length ≤ 1) (hm : i ∈ l) :
    l = [i] := by
  cases l with
  | nil => simp at hm
  | cons a t =>
    cases t with
    | nil => simp at hm; simp [hm]
    | cons b t2 => simp at hlen

theorem clearInstalled_live_nil (ts : TimerSys) (h : TimerInv ts) :
    (clearInstalled ts).live = [] := by
  obtain ⟨h1, h2, h3, h4⟩ := h
  cases hl : ts.live with
  | nil => cases hi : ts.installed <;> simp [clearInstalled, hi, hl]
  | cons a t =>
    have ha : a ∈ ts.live := by rw [hl]; simp
    have hsing := live_eq_singleton ts.live a h2 ha
    have hins := h1 a ha
    simp [clearInstalled, hins, hsing]

theorem clearInstalled_nextId (ts : TimerSys) : (clearInstalled ts).nextId = ts.nextId := by
  unfold clearInstalled
  cases ts.installed <;> rfl

theorem clearInstalled_installed (ts : TimerSys) :
    (clearInstalled ts).installed = ts.installed := by
  unfold clearInstalled
  cases h : ts.installed <;> simp [h]

theorem startTimerSys_live (ts : TimerSys) (h : TimerInv ts) :
    (startTimerSys ts).live = [ts.nextId] := by
  show (clearInstalled ts).live ++ [(clearInstalled ts).nextId] = [ts.nextId]
  rw [clearInstalled_live_nil ts h, clearInstalled_nextId ts]
  rfl

theorem startTimerSys_nextId (ts : TimerSys) :
    (startTimerSys ts).nextId = ts.nextId + 1 := by
  show (clearInstalled ts).nextId + 1 = ts.nextId + 1
  rw [clearInstalled_nextId ts]

theorem startTimerSys_installed (ts : TimerSys) :
    (startTimerSys ts).installed = some ts.nextId := by
  show some (clearInstalled ts).nextId = some ts.nextId
  rw [clearInstalled_nextId ts]

theorem timerInv_step (ts : TimerSys) (op : TimerOp) (h : TimerInv ts) :
    TimerInv (stepTimer ts op) := by
  obtain ⟨h1, h2, h3, h4⟩ := h
  cases op with
  | start =>
    show TimerInv (startTimerSys ts)
    have hl := startTimerSys_live ts ⟨h1, h2, h3, h4⟩
    have hn : (startTimerSys ts).nextId = ts.nextId + 1 := startTimerSys_nextId ts
    have hi : (startTimerSys ts).installed = some ts.nextId := startTimerSys_installed ts
    refine ⟨?_, ?_, ?_, ?_⟩
    · intro i him
      rw [hl] at him
      simp at him
      rw [hi, him]
    · rw [hl]; simp
    · intro i him
      rw [hl] at him
      simp at him
      rw [him, hn]
      omega
    · intro i him
      rw [hi] at him
      simp at him
      rw [him, hn]
      omega
  | endg =>
    show TimerInv (endGameSys ts)
    have hl : (endGameSys ts).live = [] := clearInstalled_live_nil ts ⟨h1, h2, h3, h4⟩
    refine ⟨?_, ?_, ?_, ?_⟩
    · intro i him; rw [hl] at him; simp at him
    · rw [hl]; simp
    · intro i him; rw [hl] at him; simp at him
    · intro i him
      unfold endGameSys clearInstalled at him ⊢
      cases hins : ts.installed with
      | none => simp [hins] at him
      | some j =>
        simp [hins] at him ⊢
        subst him
        exact h4 _ (by simp [hins])
  | fire =>
    show TimerInv (fireZeroSys ts).1
    unfold fireZeroSys
    cases hins : ts.installed with
    | none => exact ⟨h1, h2, h3, by simp [hins]⟩
    | some i =>
      by_cases hm : i ∈ ts.live
      · simp only [hins, hm, if_true]
        have hsing := live_eq_singleton ts.live i h2 hm
        refine ⟨?_, ?_, ?_, ?_⟩
        · intro j hj; simp [hsing] at hj
        · simp [hsing]
        · intro j hj; simp [hsing] at hj
        · intro j hj; simp at hj
      · simp only [hins, hm, if_false]
        exact ⟨h1, h2, h3, h4⟩

theorem timerInv_runOps (ops : List TimerOp) (ts : TimerSys) (h : TimerInv ts) :
    TimerInv (runOps ts ops) := by
  induction ops generalizing ts with
  | nil => exact h
  | cons op rest ih => exact ih (stepTimer ts op) (timerInv_step ts op h)

theorem dead_stays_dead_step (ts : TimerSys) (op : TimerOp) (i : Nat)
    (hlt : i < ts.nextId) (hm : i ∉ ts.live) :
    i < (stepTimer ts op).nextId ∧ i ∉ (stepTimer ts op).live := by
  have herase : ∀ (l : List Nat) (a : Nat), i ∉ l → i ∉ l.erase a :=
    fun l a hn hmem => hn (List.mem_of_mem_erase hmem)
  have hclear : i ∉ (clearInstalled ts).live := by
    unfold clearInstalled
    cases hins : ts.installed with
    | none => exact hm
    | some j => exact herase _ _ hm
  cases op with
  | start =>
    constructor
    · show i < (startTimerSys ts).nextId
      rw [startTimerSys_nextId ts]
      omega
    · show i ∉ (startTimerSys ts).live
      show i ∉ (clearInstalled ts).live ++ [(clearInstalled ts).nextId]
      rw [clearInstalled_nextId ts]
      simp only [List.mem_append, List.mem_singleton]
      rintro (hin | rfl)
      · exact hclear hin
      · omega
  | endg =>
    refine ⟨by rw [show (stepTimer ts TimerOp.endg).nextId = ts.nextId from
      clearInstalled_nextId ts]; exact hlt, hclear⟩
  | fire =>
    show i < (fireZeroSys ts).1.nextId ∧ i ∉ (fireZeroSys ts).1.live
    unfold fireZeroSys
    cases hins : ts.installed with
    | none => exact ⟨hlt, hm⟩
    | some j =>
      by_cases hmem : j ∈ ts.live
      · simp only [hmem, if_true]
        exact ⟨hlt, herase _ _ hm⟩
      · simp only [hmem, if_false]
        exact ⟨hlt, hm⟩

theorem dead_stays_dead (ts : TimerSys) (i : Nat) (hlt : i < ts.nextId)
    (hm : i ∉ ts.live) (ops : List TimerOp) : i ∉ (runOps ts ops).live := by
  induction ops generalizing ts with
  | nil => exact hm
  | cons op rest ih =>
    have hstep := dead_stays_dead_step ts op i hlt hm
    exact ih (stepTimer ts op) hstep.1 hstep.2

theorem countFires_le_aux (ops : List TimerOp) (ts : TimerSys) (h : TimerInv ts) :
    countFires ts ops ≤ countStarts ops + ts.live.length := by
  induction ops generalizing ts with
  | nil => simp [countFires]
  | cons op rest ih =>
    have hinv' := timerInv_step ts op h
    have hrec := ih (stepTimer ts op) hinv'
    cases op with
    | start =>
      have hfired : stepFired ts TimerOp.start = false := rfl
      have hlive : (stepTimer ts TimerOp.start).live.length = 1 := by
        show (startTimerSys ts).live.length = 1
        rw [startTimerSys_live ts h]
        rfl
      simp only [countFires, hfired, if_false, countStarts, List.countP_cons] at hrec ⊢
      simp only [hlive] at hrec
      simp
      omega
    | endg =>
      have hfired : stepFired ts TimerOp.endg = false := rfl
      have hlive : (stepTimer ts TimerOp.endg).live.length = 0 := by
        rw [show (stepTimer ts TimerOp.endg).live = [] from clearInstalled_live_nil ts h]
        rfl
      simp only [countFires, hfired, if_false, countStarts, List.countP_cons] at hrec ⊢
      simp only [hlive] at hrec
      simp
      omega
    | fire =>
      obtain ⟨h1, h2, h3, h4⟩ := h
      simp only [countFires, countStarts, List.countP_cons] at hrec ⊢
      by_cases hfired : stepFired ts TimerOp.fire = true
      · have hlen : ts.live.length = 1 ∧ (stepTimer ts TimerOp.fire).live.length = 0 := by
          revert hfired
          show (fireZeroSys ts).2 = true → _
          unfold fireZeroSys stepTimer
          cases hins : ts.installed with
          | none => simp
          | some j =>
            by_cases hmem : j ∈ ts.live
            · simp only [hmem, if_true, fireZeroSys, hins]
              intro _
              have hsing := live_eq_singleton ts.live j h2 hmem
              simp [hsing]
            · simp [hmem]
        simp only [hfired, if_true]
        simp only [hlen.2] at hrec
        simp only [hlen.1]
        simp
        omega
      · have hfx : stepFired ts TimerOp.fire = false := by
          revert hfired
          cases hb : stepFired ts TimerOp.fire <;> simp
        have hsame : stepTimer ts TimerOp.fire = ts := by
          revert hfx
          show (fireZeroSys ts).2 = false → (fireZeroSys ts).1 = ts
          unfold fireZeroSys
          cases hins : ts.installed with
          | none => simp
          | some j =>
            by_cases hmem : j ∈ ts.live
            · simp [hmem]
            · simp [hmem]
        simp only [hfx, if_false]
        rw [hsame] at hrec ⊢
        simp
        omega

/-- C5: from the initial state every reachable timer state has at most one
live interval; starting a new phase timer supersedes the previously
installed interval (which stops being live, and stays dead forever after);
an interval that is no longer live can never fire; and across any run the
number of timer-hit-zero firings never exceeds the number of timer
starts. -/
theorem c5_single_timer :
    (∀ ops, TimerInv (runOps initTS ops) ∧ (runOps initTS ops).live.length ≤ 1) ∧
    (∀ ts, TimerInv ts → ∀ i, ts.installed = some i →
      (startTimerSys ts).live = [ts.nextId] ∧ i ∉ (startTimerSys ts).live) ∧
    (∀ ts i, i < ts.nextId → i ∉ ts.live → ∀ ops, i ∉ (runOps ts ops).live) ∧
    (∀ ts i, ts.installed = some i → i ∉ ts.live → (fireZeroSys ts).2 = false) ∧
    (∀ ops, countFires initTS ops ≤ countStarts ops) := by
  refine ⟨?_, ?_, ?_, ?_, ?_⟩
  · intro ops
    have hinv : TimerInv initTS := by
      refine ⟨?_, ?_, ?_, ?_⟩ <;> simp [initTS]
    have h := timerInv_runOps ops initTS hinv
    exact ⟨h, h.2.1⟩
  · intro ts hinv i hins
    have hlt : i < ts.nextId := hinv.2.2.2 i (by simp [hins])
    refine ⟨startTimerSys_live ts hinv, ?_⟩
    rw [startTimerSys_live ts hinv]
    simp
    omega
  · intro ts i hlt hm ops
    exact dead_stays_dead ts i hlt hm ops
  · intro ts i hins hm
    unfold fireZeroSys
    simp [hins, hm]
  · intro ops
    have h := countFires_le_aux ops initTS (by refine ⟨?_, ?_, ?_, ?_⟩ <;> simp [initTS])
    simpa [initTS] using h

/-- C5 witness: starting a new timer over the installed interval 0 leaves
exactly the fresh interval 1 live and interval 0 dead. -/
theorem c5_witness :
    (startTimerSys ⟨1, [0], some 0⟩).live = [1] ∧
    0 ∉ (startTimerSys ⟨1, [0], some 0⟩).live :=
  c5_single_timer.2.1 ⟨1, [0], some 0⟩
    ⟨by decide, by decide, by decide, by decide⟩ 0 (by decide)

/-! ### Lobby lifecycle and presence (src/server.js lines 159-210, 376-430) -/

/-- Mutate the first roster entry with the given username, as
`lobby.participants.find(...)` followed by a field assignment does;
identity when no entry matches. -/
def updateFirst (ps : List Participant) (u : String) (f : Participant → Participant) :
    List Participant :=
  match ps with
  | [] => []
  | p :: t => if p.username = u then f p :: t else p :: updateFirst t u f

/-- The `join-lobby` handler's lobby mutation (lines 165-170): flip the found
participant's `connected` flag back to true.  The handler does not touch
the `disconnectedPlayers` tracker and does not reorder the roster. -/
def joinLobby (lobby : Lobby) (username : String) : Lobby :=
  { lobby with participants :=
      updateFirst lobby.participants username (fun p => { p with connected := true }) }

/-- Mark the first roster entry with the given username disconnected
(`participant.connected = false` after a `find`, lines 190-192, 386-388). -/
def markDisconnected (lobby : Lobby) (username : String) : Lobby :=
  { lobby with participants :=
      updateFirst lobby.participants username (fun p => { p with connected := false }) }

/-- The not-active branch shared by `leave-lobby` (lines 196-206) and
`disconnect` (lines 394-407): remove the participant from the roster, then
destroy the lobby and the game state when the roster became empty or the
leaver is the host. -/
def removeOrDestroy (lobby : Lobby) (gsOpt : Option GameState)
    (dps : List (String × Nat)) (username : String) :
    Option Lobby × Option GameState × List (String × Nat) :=
  let lobby2 := { lobby with participants :=
      lobby.participants.filter (fun p => !(decide (p.username = username))) }
  if lobby2.participants.length = 0 ∨ username = lobby.host then
    (none, none, dps)
  else (some lobby2, gsOpt, dps)

/-- The `leave-lobby` handler (lines 183-210).  During an active (non-waiting)
phase the participant, if present, is marked disconnected and recorded in
the disconnected-players tracker (username → timestamp, session-local
view); otherwise they are removed from the roster, destroying the lobby
when it empties or the leaver is the host. -/
def leaveLobby (lobbyOpt : Option Lobby) (gsOpt : Option GameState)
    (dps : List (String × Nat)) (username : String) (now : Nat) :
    Option Lobby × Option GameState × List (String × Nat) :=
  match lobbyOpt with
  | none => (none, gsOpt, dps)
  | some lobby =>
    match gsOpt with
    | some gs =>
      if gs.phase ≠ "waiting" then
        (some (markDisconnected lobby username),
         some gs,
         if lobby.participants.any (fun p => decide (p.username = username)) then
           alSet dps username now
         else dps)
      else removeOrDestroy lobby (some gs) dps username
    | none => removeOrDestroy lobby none dps username

/-- The `disconnect` handler (lines 376-412): only acts when the username is in
the roster; during an active (non-waiting) phase the participant is marked
disconnected and tracked, otherwise they are removed, destroying the lobby
when the roster empties or they are the host. -/
def handleDisconnect (lobby : Lobby) (gsOpt : Option GameState)
    (dps : List (String × Nat)) (username : String) (now : Nat) :
    Option Lobby × Option GameState × List (String × Nat) :=
  if lobby.participants.any (fun p => decide (p.username = username)) then
    match gsOpt with
    | some gs =>
      if gs.phase ≠ "waiting" then
        (some (markDisconnected lobby username), some gs, alSet dps username now)
      else removeOrDestroy lobby (some gs) dps username
    | none => removeOrDestroy lobby none dps username
  else (some lobby, gsOpt, dps)

/-- One run of the disconnected-players sweep (lines 416-430), restricted to
one session: every tracked entry older than the 5-minute grace window
(300000 ms, strict) is dropped from the tracker and its participant removed
from the roster.  The sweep never consults the participant's current
`connected` flag and never touches the game state (passed through
unchanged). -/
def sweepSession (dps : List (String × Nat)) (lobby : Lobby) (gs : GameState) (now : Nat) :
    List (String × Nat) × Lobby × GameState :=
  let res := dps.foldl
    (fun (acc : List (String × Nat) × Lobby) e =>
      if 300000 < now - e.2 then
        (acc.1, { acc.2 with participants :=
          acc.2.participants.filter (fun p => !(decide (p.username = e.1))) })
      else (acc.1 ++ [e], acc.2))
    ([], lobby)
  (res.1, res.2, gs)

def c6Lobby : Lobby :=
  ⟨"ROOM", "A", [⟨"A", true, true⟩, ⟨"B", false, true⟩], 0, true⟩

def c6Gs : GameState :=
  ⟨"initial-voting", 3, 15, some "topic", [], none, none, none, [],
    [("A", 2), ("B", 5)], [0, 4], 30, some 3⟩

/-- C6 (code bug): B disconnects during an active game at time 0 and rejoins
at once.  The rejoin restores `connected = true` with score and roster
position unchanged, but the join handler never clears B's entry from the
disconnected-players tracker, so the sweep past the grace window still
evicts the reconnected B from the roster. -/
theorem c6_reconnect_not_cleared :
    (handleDisconnect c6Lobby (some c6Gs) [] "B" 0).1 =
      some ⟨"ROOM", "A", [⟨"A", true, true⟩, ⟨"B", false, false⟩], 0, true⟩ ∧
    (handleDisconnect c6Lobby (some c6Gs) [] "B" 0).2.2 = [("B", 0)] ∧
    joinLobby ⟨"ROOM", "A", [⟨"A", true, true⟩, ⟨"B", false, false⟩], 0, true⟩ "B" =
      c6Lobby ∧
    (sweepSession [("B", 0)] c6Lobby c6Gs 300001).2.1.participants =
      [⟨"A", true, true⟩] ∧
    (sweepSession [("B", 0)] c6Lobby c6Gs 300001).1 = [] ∧
    (sweepSession [("B", 0)] c6Lobby c6Gs 300001).2.2 = c6Gs := by
  decide

theorem removeOrDestroy_destroyed (lobby : Lobby) (gsOpt : Option GameState)
    (dps : List (String × Nat)) (u : String) :
    (removeOrDestroy lobby gsOpt dps u).1 = none ↔
      ((lobby.participants.filter (fun p => !(decide (p.username = u)))).length = 0 ∨
       u = lobby.host) := by
  simp only [removeOrDestroy]
  split
  · exact iff_of_true rfl ‹_›
  · constructor
    · intro h
      simp at h
    · intro h
      exact absurd h ‹¬_›

def c7Lobby : Lobby :=
  ⟨"ROOM", "H", [⟨"H", true, true⟩, ⟨"G", false, true⟩], 0, true⟩

def c7Gs : GameState :=
  ⟨"waiting", 2, 15, none, [], none, none, none, [], [("H", 1), ("G", 0)], [0], 0, none⟩

/-- C7 counterexample: the game is running (`gameStarted`, a GameState
exists, round 2), but during the between-round `waiting` dwell the host
leaving destroys the lobby and the game state. -/
theorem c7_counterexample :
    c7Lobby.gameStarted = true ∧
    (leaveLobby (some c7Lobby) (some c7Gs) [] "H" 0).1 = none ∧
    (leaveLobby (some c7Lobby) (some c7Gs) [] "H" 0).2.1 = none := by
  decide

/-- C7 (amended): with the lobby present, `leave-lobby` destroys it exactly
when no GameState exists or the GameState's phase is `waiting` (which
includes the between-round waiting dwell of a running game) and, after
removing the leaver, the roster is empty or the leaver is the host; during
any non-waiting phase neither `leave-lobby` nor `disconnect` ever destroys
the lobby. -/
theorem c7_lobby_destruction (lobby : Lobby) (gsOpt : Option GameState)
    (dps : List (String × Nat)) (u : String) (now : Nat) :
    ((leaveLobby (some lobby) gsOpt dps u now).1 = none ↔
      ((gsOpt = none ∨ ∃ gs, gsOpt = some gs ∧ gs.phase = "waiting") ∧
       ((lobby.participants.filter (fun p => !(decide (p.username = u)))).length = 0 ∨
        u = lobby.host))) ∧
    (∀ gs, gsOpt = some gs → gs.phase ≠ "waiting" →
      (leaveLobby (some lobby) gsOpt dps u now).1 ≠ none ∧
      (handleDisconnect lobby gsOpt dps u now).1 ≠ none) := by
  cases gsOpt with
  | none =>
    refine ⟨?_, ?_⟩
    · show (removeOrDestroy lobby none dps u).1 = none ↔ _
      rw [removeOrDestroy_destroyed]
      simp
    · intro gs hgs
      simp at hgs
  | some gs =>
    by_cases hw : gs.phase = "waiting"
    · refine ⟨?_, ?_⟩
      · show (if gs.phase ≠ "waiting" then _ else removeOrDestroy lobby (some gs) dps u).1
            = none ↔ _
        rw [if_neg (by simp [hw])]
        rw [removeOrDestroy_destroyed]
        constructor
        · intro h
          exact ⟨Or.inr ⟨gs, rfl, hw⟩, h⟩
        · intro h
          exact h.2
      · intro gs2 hgs2 hph
        rw [← show gs = gs2 by simpa using hgs2] at hph
        exact absurd hw hph
    · refine ⟨?_, ?_⟩
      · show (if gs.phase ≠ "waiting" then
            (some (markDisconnected lobby u), some gs,
             if lobby.participants.any (fun p => decide (p.username = u)) then
               alSet dps u now
             else dps)
          else removeOrDestroy lobby (some gs) dps u).1 = none ↔ _
        rw [if_pos hw]
        constructor
        · intro h
          simp at h
        · rintro ⟨hdisj, -⟩
          rcases hdisj with h | ⟨gs2, hgs2, hph⟩
          · simp at h
          · rw [← show gs = gs2 by simpa using hgs2] at hph
            exact absurd hph hw
      · intro gs2 hgs2 hph
        constructor
        · show (if gs.phase ≠ "waiting" then
              (some (markDisconnected lobby u), some gs,
               if lobby.participants.any (fun p => decide (p.username = u)) then
                 alSet dps u now
               else dps)
            else removeOrDestroy lobby (some gs) dps u).1 ≠ none
          rw [if_pos hw]
          simp
        · unfold handleDisconnect
          by_cases hany : lobby.participants.any (fun p => decide (p.username = u)) = true
          · rw [if_pos hany]
            show (if gs.phase ≠ "waiting" then
                (some (markDisconnected lobby u), some gs, alSet dps u now)
              else removeOrDestroy lobby (some gs) dps u).1 ≠ none
            rw [if_pos hw]
            simp
          · rw [if_neg hany]
            simp

def c7GsActive : GameState :=
  ⟨"guessing", 2, 15, none, [], some "G", none, none, [], [("H", 1), ("G", 0)], [0], 10,
    some 2⟩

/-- C7 (amended) witness: with a running, non-waiting phase, neither a host
leave nor a host disconnect destroys the lobby. -/
theorem c7_witness :
    (leaveLobby (some c7Lobby) (some c7GsActive) [] "H" 0).1 ≠ none ∧
    (handleDisconnect c7Lobby (some c7GsActive) [] "H" 0).1 ≠ none :=
  (c7_lobby_destruction c7Lobby (some c7GsActive) [] "H" 0).2 c7GsActive rfl (by decide)

/-! ### Restart (src/server.js lines 343-374) -/

/-- The `restart-game` handler (lines 343-374): host only.  Round-scoped fields,
the used-topic history and the timer are reset, and every CURRENT roster
member's score entry is set to 0; score entries of departed players are not
removed.  (The cleared interval handle is kept in the field, as in the
source.) -/
def restartGame (lobby : Lobby) (gs : GameState) (requester : String) : GameState :=
  if requester = lobby.host then
    { gs with
      phase := "initial-voting", roundNumber := 1, currentTopic := none,
      initialVotes := [], selectedPlayer := none, playerInitialVote := none,
      confession := none, guesses := [], usedTopics := [], timer := 30,
      scores := lobby.participants.foldl (fun sc p => alSet sc p.username 0) gs.scores }
  else gs

theorem foldl_alSet_hasKey (parts : List Participant) (sc : List (String × Int))
    (k : String) (h : alHasKey sc k = true) :
    alHasKey (parts.foldl (fun sc p => alSet sc p.username 0) sc) k = true := by
  induction parts generalizing sc with
  | nil => exact h
  | cons p t ih => exact ih _ (alHasKey_alSet _ _ _ _ h)

theorem foldl_alSet_zero_pres (parts : List Participant) (sc : List (String × Int))
    (u : String) (h : alGet sc u = some 0) :
    alGet (parts.foldl (fun sc p => alSet sc p.username 0) sc) u = some 0 := by
  induction parts generalizing sc with
  | nil => exact h
  | cons q t ih =>
    apply ih
    show alGet (alSet sc q.username 0) u = some 0
    by_cases hq : q.username = u
    · rw [hq]
      exact alGet_alSet_self sc u 0
    · rw [alGet_alSet_ne sc q.username u 0 (fun he => hq he.symm)]
      exact h

theorem foldl_alSet_zero (parts : List Participant) (p : Participant) :
    p ∈ parts → ∀ sc : List (String × Int),
      alGet (parts.foldl (fun sc p => alSet sc p.username 0) sc) p.username = some 0 := by
  induction parts with
  | nil =>
    intro hp
    simp at hp
  | cons q t ih =>
    intro hp sc
    rcases List.mem_cons.mp hp with rfl | hp2
    · show alGet (List.foldl (fun sc p => alSet sc p.username 0) (alSet sc p.username 0) t)
          p.username = some 0
      exact foldl_alSet_zero_pres t _ p.username (alGet_alSet_self sc p.username 0)
    · exact ih hp2 (alSet sc q.username 0)

theorem foldl_alSet_not_mem (parts : List Participant) (sc : List (String × Int))
    (u : String) (h : u ∉ parts.map (·.username)) :
    alGet (parts.foldl (fun sc p => alSet sc p.username 0) sc) u = alGet sc u := by
  induction parts generalizing sc with
  | nil => rfl
  | cons q t ih =>
    simp only [List.map_cons, List.mem_cons, not_or] at h
    calc alGet ((q :: t).foldl (fun sc p => alSet sc p.username 0) sc) u
        = alGet (t.foldl (fun sc p => alSet sc p.username 0) (alSet sc q.username 0)) u :=
          rfl
      _ = alGet (alSet sc q.username 0) u := ih _ h.2
      _ = alGet sc u := alGet_alSet_ne sc q.username u 0 h.1

theorem leaveLobby_some_some (lobby : Lobby) (gs : GameState)
    (dps : List (String × Nat)) (u : String) (now : Nat) :
    leaveLobby (some lobby) (some gs) dps u now =
      if gs.phase ≠ "waiting" then
        (some (markDisconnected lobby u), some gs,
         if lobby.participants.any (fun p => decide (p.username = u)) then
           alSet dps u now
         else dps)
      else removeOrDestroy lobby (some gs) dps u := rfl

theorem handleDisconnect_some (lobby : Lobby) (gs : GameState)
    (dps : List (String × Nat)) (u : String) (now : Nat) :
    handleDisconnect lobby (some gs) dps u now =
      if lobby.participants.any (fun p => decide (p.username = u)) then
        if gs.phase ≠ "waiting" then
          (some (markDisconnected lobby u), some gs, alSet dps u now)
        else removeOrDestroy lobby (some gs) dps u
      else (some lobby, some gs, dps) := rfl

/-- C10: the key set of the scores mapping never shrinks: a leave or a
disconnect that keeps the GameState leaves it untouched, the presence sweep
never touches it, restart-game preserves every existing score key while
re-seeding exactly the current roster members to 0 (stale entries of
departed players keep their old value), and both award phases preserve the
key set. -/
theorem c10_score_keys_never_shrink (lobby : Lobby) (gs : GameState)
    (dps : List (String × Nat)) (u r : String) (now : Nat) (k : String) :
    ((leaveLobby (some lobby) (some gs) dps u now).2.1 = none ∨
     (leaveLobby (some lobby) (some gs) dps u now).2.1 = some gs) ∧
    ((handleDisconnect lobby (some gs) dps u now).2.1 = none ∨
     (handleDisconnect lobby (some gs) dps u now).2.1 = some gs) ∧
    ((sweepSession dps lobby gs now).2.2 = gs) ∧
    (alHasKey gs.scores k = true → alHasKey (restartGame lobby gs r).scores k = true) ∧
    (r = lobby.host → ∀ p ∈ lobby.participants,
      alGet (restartGame lobby gs r).scores p.username = some 0) ∧
    (k ∉ lobby.participants.map (·.username) →
      alGet (restartGame lobby gs r).scores k = alGet gs.scores k) ∧
    (alHasKey (calculateInitialResults lobby gs).scores k = alHasKey gs.scores k) ∧
    (alHasKey (calculateConfessionResults lobby gs).scores k = alHasKey gs.scores k) := by
  refine ⟨?_, ?_, rfl, ?_, ?_, ?_, ?_, ?_⟩
  · rw [leaveLobby_some_some]
    by_cases hw : gs.phase ≠ "waiting"
    · rw [if_pos hw]
      exact Or.inr rfl
    · rw [if_neg hw]
      simp only [removeOrDestroy]
      split
      · exact Or.inl rfl
      · exact Or.inr rfl
  · rw [handleDisconnect_some]
    by_cases hany : lobby.participants.any (fun p => decide (p.username = u)) = true
    · rw [if_pos hany]
      by_cases hw : gs.phase ≠ "waiting"
      · rw [if_pos hw]
        exact Or.inr rfl
      · rw [if_neg hw]
        simp only [removeOrDestroy]
        split
        · exact Or.inl rfl
        · exact Or.inr rfl
    · rw [if_neg hany]
      exact Or.inr rfl
  · intro h
    unfold restartGame
    split
    · exact foldl_alSet_hasKey lobby.participants gs.scores k h
    · exact h
  · intro hr p hp
    unfold restartGame
    rw [if_pos hr]
    exact foldl_alSet_zero lobby.participants p hp gs.scores
  · intro hk
    unfold restartGame
    split
    · exact foldl_alSet_not_mem lobby.participants gs.scores k hk
    · rfl
  · have hs : (calculateInitialResults lobby gs).scores =
        match majorityVote (countVotes lobby gs.initialVotes) with
        | some m => awardBy (fun p => decide (alGet gs.initialVotes p.username = some m)) 1
            lobby.participants gs.scores
        | none => gs.scores := rfl
    rw [hs]
    cases majorityVote (countVotes lobby gs.initialVotes) with
    | none => rfl
    | some m => exact alHasKey_awardBy _ 1 lobby.participants gs.scores k
  · have hs : (calculateConfessionResults lobby gs).scores =
        awardBy (fun p => p.connected && decide (gs.selectedPlayer ≠ some p.username) &&
          decide (alGet gs.guesses p.username = some (jsOr gs.confession "true"))) 3
          lobby.participants gs.scores := rfl
    rw [hs]
    exact alHasKey_awardBy _ 3 lobby.participants gs.scores k

def c10Lobby : Lobby :=
  ⟨"ROOM", "A", [⟨"A", true, true⟩, ⟨"B", false, true⟩], 0, true⟩

def c10Gs : GameState :=
  ⟨"scoreboard", 4, 15, none, [], none, none, none, [],
    [("A", 2), ("B", 1), ("GONE", 7)], [1, 2], 0, none⟩

/-- C10 witness: restarting keeps the stale entry of the departed player
GONE (still 7) while re-seeding the roster members A and B to 0. -/
theorem c10_witness :
    alHasKey (restartGame c10Lobby c10Gs "A").scores "GONE" = true ∧
    alGet (restartGame c10Lobby c10Gs "A").scores "GONE" = some 7 ∧
    alGet (restartGame c10Lobby c10Gs "A").scores "B" = some 0 := by
  refine ⟨?_, ?_, ?_⟩
  · exact (c10_score_keys_never_shrink c10Lobby c10Gs [] "A" "A" 0 "GONE").2.2.2.1 (by decide)
  · have h := (c10_score_keys_never_shrink c10Lobby c10Gs [] "A" "A" 0 "GONE").2.2.2.2.2.1
      (by decide)
    rw [h]
    decide
  · have h := (c10_score_keys_never_shrink c10Lobby c10Gs [] "A" "A" 0 "B").2.2.2.2.1 rfl
      ⟨"B", false, true⟩ (by decide)
    simpa using h

/-! ### Prompt selection (src/server.js lines 439-454) -/

/-- The indexed catalog entries whose index is not yet used
(`topics.filter((topic, index) => !usedTopics.includes(index))`, keeping
the index of each kept entry). -/
def availablePairs (used : List Nat) : Nat → List String → List (Nat × String)
  | _, [] => []
  | i, t :: ts => (if i ∈ used then [] else [(i, t)]) ++ availablePairs used (i + 1) ts

/-- The JS `Array.prototype.indexOf`: the position of the FIRST equal element
(none when absent; the selection below only calls it on present
elements). -/
def jsIndexOf : List String → String → Option Nat
  | [], _ => none
  | a :: l, s => if a = s then some 0 else (jsIndexOf l s).map (· + 1)

/-- Topic selection of `startInitialVotingPhase` (lines 439-454): filter the
catalog to the entries with unused indices, pick the candidate at the
random draw `rand` (reduced modulo the candidate count, as
`Math.floor(Math.random() * length)` ranges over [0, length)), and push
`topics.indexOf(selectedTopic)` — the first index of the selected TEXT —
onto `usedTopics`.  Returns the chosen text and the updated used list, or
none when no candidate remains (the caller then ends the game). -/
def selectTopic (topics : List String) (used : List Nat) (rand : Nat) :
    Option (String × List Nat) :=
  let avail := (availablePairs used 0 topics).map (·.2)
  if avail.length = 0 then none
  else
    let sel := avail.getD (rand % avail.length) ""
    match jsIndexOf topics sel with
    | some i => some (sel, used ++ [i])
    | none => none

/-- C8 counterexample: with the two-entry catalog ["a", "a"], three
consecutive selections all succeed (each recording index 0, the first
occurrence of the chosen text), so a duplicate catalog entry is not
"independently selectable exactly once". -/
theorem c8_counterexample :
    selectTopic ["a", "a"] [] 1 = some ("a", [0]) ∧
    selectTopic ["a", "a"] [0] 0 = some ("a", [0, 0]) ∧
    (selectTopic ["a", "a"] [0, 0] 0).isSome = true := by
  decide

theorem availablePairs_mem (used : List Nat) (ts : List String) (n i : Nat) (s : String)
    (h : (i, s) ∈ availablePairs used n ts) :
    n ≤ i ∧ ts[i - n]? = some s ∧ i ∉ used := by
  induction ts generalizing n with
  | nil => simp [availablePairs] at h
  | cons a rest ih =>
    simp only [availablePairs, List.mem_append] at h
    rcases h with h | h
    · by_cases hc : n ∈ used
      · simp [hc] at h
      · simp [hc] at h
        obtain ⟨rfl, rfl⟩ := h
        exact ⟨le_refl _, by simp, hc⟩
    · obtain ⟨hle, hget, hnu⟩ := ih (n + 1) h
      refine ⟨by omega, ?_, hnu⟩
      rw [show i - n = (i - (n + 1)) + 1 by omega]
      simpa using hget

theorem jsIndexOf_nodup (l : List String) (i : Nat) (s : String) (hnd : l.Nodup)
    (h : l[i]? = some s) : jsIndexOf l s = some i := by
  induction l generalizing i with
  | nil => simp at h
  | cons a rest ih =>
    cases i with
    | zero =>
      simp at h
      subst h
      simp [jsIndexOf]
    | succ j =>
      simp at h
      have hmem : s ∈ rest := List.getElem?_mem h
      have hne : a ≠ s := by
        rintro rfl
        exact (List.nodup_cons.mp hnd).1 hmem
      simp [jsIndexOf, hne, ih j (List.nodup_cons.mp hnd).2 h]

theorem getD_mem_of_lt {α : Type} (l : List α) (i : Nat) (d : α) (h : i < l.length) :
    l.getD i d ∈ l := by
  rw [List.getD_eq_getElem l d h]
  exact List.getElem_mem h

/-- C8 (amended): selection only offers catalog entries whose index is not
yet recorded, and records the first catalog index of the chosen text; when
the catalog entries are pairwise distinct this is exactly the chosen
entry's index, it was not yet recorded, and it is appended to the used
list, so each entry is selectable exactly once — but with duplicated texts
the recorded index can be an earlier twin's, leaving the chosen entry
selectable again. -/
theorem c8_index_recording (topics : List String) (used : List Nat) (rand : Nat)
    (hnd : topics.Nodup) (t : String) (used2 : List Nat)
    (hsel : selectTopic topics used rand = some (t, used2)) :
    ∃ i, topics[i]? = some t ∧ i ∉ used ∧ used2 = used ++ [i] := by
  have hlen : ((availablePairs used 0 topics).map (·.2)).length ≠ 0 := by
    intro h0
    simp only [selectTopic] at hsel
    rw [if_pos h0] at hsel
    exact absurd hsel (by simp)
  simp only [selectTopic] at hsel
  rw [if_neg hlen] at hsel
  have hmem : ((availablePairs used 0 topics).map (·.2)).getD
      (rand % ((availablePairs used 0 topics).map (·.2)).length) "" ∈
      (availablePairs used 0 topics).map (·.2) :=
    getD_mem_of_lt _ _ _ (Nat.mod_lt _ (Nat.pos_of_ne_zero hlen))
  obtain ⟨⟨i, s⟩, hpair, hs⟩ := List.mem_map.mp hmem
  have hap := availablePairs_mem used topics 0 i s hpair
  have hget : topics[i]? = some s := by simpa using hap.2.1
  have hidx : jsIndexOf topics s = some i := jsIndexOf_nodup topics i s hnd hget
  rw [← hs] at hsel
  rw [hidx] at hsel
  simp only [Option.some.injEq, Prod.mk.injEq] at hsel
  obtain ⟨rfl, rfl⟩ := hsel
  exact ⟨i, hget, hap.2.2, rfl⟩

/-- C8 (amended) witness: on the duplicate-free catalog ["a", "b"], the
draw 1 selects "b" and records exactly its unused index. -/
theorem c8_witness :
    ∃ i, (["a", "b"] : List String)[i]? = some "b" ∧ i ∉ ([] : List Nat) ∧
      ([1] : List Nat) = [] ++ [i] :=
  c8_index_recording ["a", "b"] [] 1 (by decide) "b" [1] (by decide)

/-! ### Scoreboard and game end (src/server.js lines 655-693) -/

inductive ScoreboardNext
  | ended (finalScores : List (String × Int))
  | nextRound
deriving DecidableEq, Repr

/-- The post-dwell continuation of `showScoreboard` (lines 665-678) together
with `endGame` (lines 681-693): increment the round number; when it now
exceeds `totalRounds`, or the used-topics list is at least as long as the
catalog, end the game — broadcast the final scores and clear the installed
interval — otherwise enter the between-round `waiting` phase with the timer
state untouched. -/
def scoreboardAdvance (catalogLength : Nat) (gs : GameState) (ts : TimerSys) :
    GameState × TimerSys × ScoreboardNext :=
  if gs.roundNumber + 1 > gs.totalRounds ∨ catalogLength ≤ gs.usedTopics.length then
    ({ gs with roundNumber := gs.roundNumber + 1 }, endGameSys ts,
      ScoreboardNext.ended gs.scores)
  else
    ({ gs with roundNumber := gs.roundNumber + 1, phase := "waiting" }, ts,
      ScoreboardNext.nextRound)

theorem length_ge_of_all_mem (n : Nat) (l : List Nat) (h : ∀ i < n, i ∈ l) :
    n ≤ l.length := by
  have hsub : Finset.range n ⊆ l.toFinset := by
    intro i hi
    rw [List.mem_toFinset]
    exact h i (Finset.mem_range.mp hi)
  calc n = (Finset.range n).card := (Finset.card_range n).symm
    _ ≤ l.toFinset.card := Finset.card_le_card hsub
    _ ≤ l.length := l.toFinset_card_le

/-- C9: after the scoreboard dwell, the incremented round number exceeding
`totalRounds`, or the catalog having no unused index, each independently
force the ended outcome, which broadcasts the final scores and cancels the
active timer. -/
theorem c9_round_termination (catalogLength : Nat) (gs : GameState) (ts : TimerSys)
    (hinv : TimerInv ts) :
    (gs.roundNumber + 1 > gs.totalRounds →
      (scoreboardAdvance catalogLength gs ts).2.2 = ScoreboardNext.ended gs.scores ∧
      (scoreboardAdvance catalogLength gs ts).2.1.live = []) ∧
    ((∀ i < catalogLength, i ∈ gs.usedTopics) →
      (scoreboardAdvance catalogLength gs ts).2.2 = ScoreboardNext.ended gs.scores ∧
      (scoreboardAdvance catalogLength gs ts).2.1.live = []) := by
  have hend : (endGameSys ts).live = [] := clearInstalled_live_nil ts hinv
  constructor
  · intro h
    unfold scoreboardAdvance
    rw [if_pos (Or.inl h)]
    exact ⟨rfl, hend⟩
  · intro h
    unfold scoreboardAdvance
    rw [if_pos (Or.inr (length_ge_of_all_mem catalogLength gs.usedTopics h))]
    exact ⟨rfl, hend⟩

def c9Gs : GameState :=
  ⟨"scoreboard", 3, 15, some "topic", [], none, none, none, [],
    [("A", 4), ("B", 2)], [0, 1, 2], 0, some 0⟩

/-- C9 witness: with catalog size 3 fully used, the scoreboard continuation
ends the game with the final scores and an empty live-timer set. -/
theorem c9_witness :
    (scoreboardAdvance 3 c9Gs ⟨1, [0], some 0⟩).2.2 = ScoreboardNext.ended c9Gs.scores ∧
    (scoreboardAdvance 3 c9Gs ⟨1, [0], some 0⟩).2.1.live = [] :=
  (c9_round_termination 3 c9Gs ⟨1, [0], some 0⟩
    ⟨by decide, by decide, by decide, by decide⟩).2 (by decide)

end Server
